import Mathlib

/-!
Verification of the stripped-symbol backtrace reconstruction scripts of the
`dotfiles` repository (LLDB extension scripts, `src/lldb/`).

The Python sources are shallowly embedded: the host debugger (LLDB) is
modelled by a `Target` structure bundling the three collaborator services the
scripts use — address resolution (`resolve`, standing for
`target.ResolveLoadAddress(a).symbol`), module lookup (`module_basename`,
standing for `addr.module.file.basename`) and expression evaluation
(`EvaluateExpression`, standing for `target.EvaluateExpression`, whose result
is `none` on failure and otherwise the list of key/value children of the
returned dictionary; the stringified-address keys are modelled directly as
the numbers they print, mirroring the `int(... .description)` round trip in
the source).  Python integers are `Nat`/`Int`; Python string formatting is
reproduced by explicit digit functions.
-/

/-- Decimal digit characters of a natural number, most significant first;
this models Python `str(n)` for a non-negative `n`. -/
def natDecimalDigits (n : Nat) : List Char :=
  if _h : n < 10 then [Nat.digitChar n]
  else natDecimalDigits (n / 10) ++ [Nat.digitChar (n % 10)]
termination_by n
decreasing_by exact Nat.div_lt_self (by omega) (by omega)

/-- Model of Python `str(n)` for a non-negative integer. -/
def pyStr (n : Nat) : String := String.mk (natDecimalDigits n)

/-- Hexadecimal digit characters of a natural number, most significant
first, lowercase. -/
def natHexDigits (n : Nat) : List Char :=
  if _h : n < 16 then [Nat.digitChar n]
  else natHexDigits (n / 16) ++ [Nat.digitChar (n % 16)]
termination_by n
decreasing_by exact Nat.div_lt_self (by omega) (by omega)

/-- Model of Python `hex(n)` for a non-negative `n`: `0x` followed by
lowercase hexadecimal digits. -/
def pyHex (n : Nat) : String := "0x" ++ String.mk (natHexDigits n)

/-- Model of the Python format spec `{n:<2}`: left-justify in a field of
minimum width 2, padding with spaces on the right. -/
def format_left2 (n : Nat) : String :=
  let s := pyStr n
  if s.length < 2 then s ++ String.mk (List.replicate (2 - s.length) ' ') else s

/-- Helper for `is_substring`: does `needle` occur as a contiguous run
inside the character list? -/
def chars_contains (needle : List Char) : List Char → Bool
  | [] => needle.isEmpty
  | c :: rest => needle.isPrefixOf (c :: rest) || chars_contains needle rest

/-- Model of the Python expression `needle in hay` on strings: contiguous
substring containment. -/
def is_substring (needle hay : String) : Bool := chars_contains needle.data hay.data

/-- Concatenation of a list of strings, in order. -/
def concatAll (l : List String) : String := l.foldr (fun s t => s ++ t) ""

/-- Model of the symbol object returned by
`target.ResolveLoadAddress(a).symbol`: its `name`, the load address of its
start (`symbol.addr.GetLoadAddress(target)`, field `addr`), and the
`synthetic` flag. -/
structure SymbolEntry where
  name : String
  addr : Nat
  synthetic : Bool
deriving Repr, DecidableEq

/-- Model of the host debugger target.  `resolve a` is the symbol of the
address `a`; `module_basename a` is `ResolveLoadAddress(a).module.file.basename`;
`EvaluateExpression script` is the batched expression evaluation: `none`
models a failed or unusable evaluation (invalid `SBValue`, no children),
`some kvs` models a dictionary result whose children are the key/value
pairs `kvs` (keys are the integers that the stringified keys denote). -/
structure Target where
  resolve : Nat → SymbolEntry
  module_basename : Nat → String
  EvaluateExpression : String → Option (List (Nat × String))

namespace sbt

/-- First fixed raw-string piece of the Objective-C introspection script in
`generate_executable_methods_script` (`src/lldb/sbt.py`). -/
def command_script_head : String := "
    @import ObjectiveC;
    @import Foundation;
  NSMutableDictionary *retdict = [NSMutableDictionary dictionary];
  unsigned int count = 0;
  const char *path = (char *)[[[NSBundle mainBundle] executablePath] UTF8String];
  const char **allClasses = (const char **)objc_copyClassNamesForImage(path, &count);
  for (int i = 0; i < count; i++) \x7b
    Class cls = objc_getClass(allClasses[i]);
    if (!(Class)class_getSuperclass(cls)) \x7b
      continue;
    \x7d
    unsigned int methCount = 0;
    Method *methods = class_copyMethodList(cls, &methCount);
    for (int j = 0; j < methCount; j++) \x7b
      Method meth = methods[j];
      id implementation = (id)method_getImplementation(meth);
      NSString *methodName = [[[[@\"-[\" stringByAppendingString:NSStringFromClass(cls)] stringByAppendingString:@\" \"] stringByAppendingString:NSStringFromSelector(method_getName(meth))] stringByAppendingString:@\"]\"];
      [retdict setObject:methodName forKey:(id)[@((uintptr_t)implementation) stringValue]];
    \x7d

    unsigned int classMethCount = 0;

    Method *classMethods = class_copyMethodList(objc_getMetaClass(class_getName(cls)), &classMethCount);
    for (int j = 0; j < classMethCount; j++) \x7b
      Method meth = classMethods[j];
      id implementation = (id)method_getImplementation(meth);
      NSString *methodName = [[[[@\"+[\" stringByAppendingString:NSStringFromClass(cls)] stringByAppendingString:@\" \"] stringByAppendingString:NSStringFromSelector(method_getName(meth))] stringByAppendingString:@\"]\"];
      [retdict setObject:methodName forKey:(id)[@((uintptr_t)implementation) stringValue]];
    \x7d

    free(methods);
    free(classMethods);
  \x7d
  free(allClasses);
  "

/-- Second fixed raw-string piece of the Objective-C introspection script in
`generate_executable_methods_script` (`src/lldb/sbt.py`). -/
def command_script_tail : String := "

  NSMutableDictionary *stackDict = [NSMutableDictionary dictionary];
  [retdict keysOfEntriesPassingTest:^BOOL(id key, id obj, BOOL *stop) \x7b

    if ([ar containsObject:key]) \x7b
      [stackDict setObject:obj forKey:key];
      return YES;
    \x7d

    return NO;
  \x7d];
  stackDict;
  "

/-- Embedding of `generate_executable_methods_script` (`src/lldb/sbt.py`):
build the `NSArray *ar = @[...]` literal from the stringified addresses
(dropping the last character exactly as the Python `[:-1]` slice does) and
splice it between the two fixed script pieces. -/
def generate_executable_methods_script (frame_addresses : List Nat) : String :=
  let frame_addr_str :=
    (frame_addresses.foldl (fun acc f => acc ++ "@\"" ++ pyStr f ++ "\",") "NSArray *ar = @[").dropRight 1
      ++ "];"
  command_script_head ++ frame_addr_str ++ command_script_tail

/-- The children of the evaluated dictionary, as read by the loop in
`process_stack_trace_string_from_addresses` via
`methods_val.sbvalue.GetNumChildren()` and `methods_val[i]`: a failed
evaluation yields an invalid value with zero children, i.e. `[]`. -/
def methods_children (methods : Option (List (Nat × String))) : List (Nat × String) :=
  methods.getD []

/-- Embedding of the inner `for i in range(children)` loop of
`process_stack_trace_string_from_addresses`: scan the dictionary children
in order, and on the first key equal to `load_address` replace `name` by
that child's value (the `break`); otherwise keep `name`. -/
def find_method_name (entries : List (Nat × String)) (load_address : Nat) (name : String) : String :=
  match entries with
  | [] => name
  | (key, value) :: rest =>
    if key = load_address then value else find_method_name rest load_address name

/-- The `name` computed for one frame by
`process_stack_trace_string_from_addresses`: the plain symbol name for a
non-synthetic symbol; for a synthetic symbol, the method-table value found
at the symbol's start address, defaulting to the placeholder name with the
`" ... unresolved womp womp"` marker appended. -/
def frame_symbol_name (t : Target) (entries : List (Nat × String)) (frame_addr : Nat) : String :=
  let symbol := t.resolve frame_addr
  if symbol.synthetic then
    find_method_name entries symbol.addr (symbol.name ++ " ... unresolved womp womp")
  else
    symbol.name

/-- The `offset_str` computed for one frame: empty, unless the address is
strictly past the symbol start, in which case `"+ "` followed by the
decimal offset. -/
def offset_string (t : Target) (frame_addr : Nat) : String :=
  let offset : Int := (frame_addr : Int) - ((t.resolve frame_addr).addr : Int)
  if 0 < offset then "+ " ++ pyStr offset.toNat else ""

/-- One line of output of `process_stack_trace_string_from_addresses`,
mirroring the f-string
`f"frame #{index:<2}: {hex(...)} {module}`{name} {offset_str}\n"`. -/
def frame_line (t : Target) (entries : List (Nat × String)) (index : Nat) (frame_addr : Nat) : String :=
  "frame #" ++ format_left2 index ++ ": " ++ pyHex frame_addr ++ " "
    ++ t.module_basename frame_addr ++ "`" ++ frame_symbol_name t entries frame_addr
    ++ " " ++ offset_string t frame_addr ++ "\n"

/-- The `for index, frame_addr in enumerate(frame_addresses)` loop of
`process_stack_trace_string_from_addresses`, accumulating `frame_string`. -/
def process_loop (t : Target) (entries : List (Nat × String)) :
    List Nat → Nat → String → String
  | [], _, acc => acc
  | frame_addr :: rest, index, acc =>
    process_loop t entries rest (index + 1) (acc ++ frame_line t entries index frame_addr)

/-- Embedding of `process_stack_trace_string_from_addresses`
(`src/lldb/sbt.py`): compute the symbol start addresses, generate the
introspection script, evaluate it once, then format every frame. -/
def process_stack_trace_string_from_addresses (frame_addresses : List Nat) (t : Target) : String :=
  let start_addresses := frame_addresses.map fun f => (t.resolve f).addr
  let script := generate_executable_methods_script start_addresses
  let methods := t.EvaluateExpression script
  let entries := methods_children methods
  process_loop t entries frame_addresses 0 ""

/-- Instrumented wrapper around one `target.EvaluateExpression` call: the
result, together with a cost of one query to the introspection service. -/
def evaluate_counted (t : Target) (script : String) : Option (List (Nat × String)) × Nat :=
  (t.EvaluateExpression script, 1)

/-- Instrumented embedding of `process_stack_trace_string_from_addresses`:
identical to the plain embedding, but every `EvaluateExpression` call goes
through `evaluate_counted` and the costs are summed; the second component
is the total number of introspection queries issued.  The frame loop
performs no query, so the only contribution is the single batched call. -/
def process_traced (frame_addresses : List Nat) (t : Target) : String × Nat :=
  let start_addresses := frame_addresses.map fun f => (t.resolve f).addr
  let script := generate_executable_methods_script start_addresses
  let methods := evaluate_counted t script
  let entries := methods_children methods.1
  (process_loop t entries frame_addresses 0 "", methods.2)

/-- Number of Runtime Introspection Service queries
(`target.EvaluateExpression` calls) issued by one call of
`process_stack_trace_string_from_addresses`. -/
def introspection_query_count (frame_addresses : List Nat) (t : Target) : Nat :=
  (process_traced frame_addresses t).2

/-- Embedding of `handle_command` (`src/lldb/sbt.py`).  The selected thread
is `none` when the process is not paused (the `thread is None` check);
otherwise it carries the frame load addresses.  `Except.error` models
`result.SetError` followed by the early `return` (no trace output);
`Except.ok` models `result.AppendMessage(frame_string)`. -/
def handle_command (selected_thread : Option (List Nat)) (t : Target) : Except String String :=
  match selected_thread with
  | none => Except.error "LLDB must be paused to execute this command"
  | some frame_addresses =>
    Except.ok (process_stack_trace_string_from_addresses frame_addresses t)

end sbt

namespace msl

/-- The `offset_str` computed for one frame by the unsymbolicating variant
`process_stack_trace_string_from_addresses` in `src/lldb/commands/msl.py`
(same computation as in `sbt.py`). -/
def offset_string (t : Target) (frame_addr : Nat) : String :=
  let offset : Int := (frame_addr : Int) - ((t.resolve frame_addr).addr : Int)
  if 0 < offset then "+ " ++ pyStr offset.toNat else ""

/-- One line of output of msl's `process_stack_trace_string_from_addresses`,
mirroring `f"frame # {index:<2}: {hex(...)} {module}`{name} {offset_str}\n"`
(note the extra space after `#`); the name is always the resolved symbol
name, with no substitution. -/
def frame_line (t : Target) (index : Nat) (frame_addr : Nat) : String :=
  "frame # " ++ format_left2 index ++ ": " ++ pyHex frame_addr ++ " "
    ++ t.module_basename frame_addr ++ "`" ++ (t.resolve frame_addr).name
    ++ " " ++ offset_string t frame_addr ++ "\n"

/-- The `for index, frame_addr in enumerate(frame_addresses)` loop of msl's
`process_stack_trace_string_from_addresses`. -/
def process_loop (t : Target) : List Nat → Nat → String → String
  | [], _, acc => acc
  | frame_addr :: rest, index, acc =>
    process_loop t rest (index + 1) (acc ++ frame_line t index frame_addr)

/-- Embedding of `process_stack_trace_string_from_addresses`
(`src/lldb/commands/msl.py`): plain per-frame formatting with no
introspection. -/
def process_stack_trace_string_from_addresses (frame_addresses : List Nat) (t : Target) : String :=
  process_loop t frame_addresses 0 ""

end msl

namespace breakafterregex

/-- Embedding of `get_register_string` (`src/lldb/breakafterregex.py`): map
the target triple to the architecture's return-value register, raising
(`Except.error`) `"Unknown hardware."` when no known substring occurs. -/
def get_register_string (triple_name : String) : Except String String :=
  if is_substring "x86_64" triple_name then Except.ok "$rax"
  else if is_substring "i386" triple_name then Except.ok "$eax"
  else if is_substring "arm64" triple_name then Except.ok "$x0"
  else Except.error "Unknown hardware."

end breakafterregex

namespace commands_breakafterregex

/-- Embedding of `get_register_string` (`src/lldb/commands/breakafterregex.py`),
textually the same computation as the copy in `src/lldb/breakafterregex.py`. -/
def get_register_string (triple_name : String) : Except String String :=
  if is_substring "x86_64" triple_name then Except.ok "$rax"
  else if is_substring "i386" triple_name then Except.ok "$eax"
  else if is_substring "arm64" triple_name then Except.ok "$x0"
  else Except.error "Unknown hardware."

end commands_breakafterregex


/-- Newline-freedom predicate on strings, used to state the line-structure
properties of the produced traces. -/
def noNL (s : String) : Prop := '\n' ∉ s.data

namespace sbt

/-- The method-table children used by one call of
`process_stack_trace_string_from_addresses` on the given input: the children
of the one batched `EvaluateExpression` result. -/
def entries_for (frame_addresses : List Nat) (t : Target) : List (Nat × String) :=
  methods_children
    (t.EvaluateExpression
      (generate_executable_methods_script (frame_addresses.map fun f => (t.resolve f).addr)))

/-- The per-frame output lines of `process_stack_trace_string_from_addresses`,
in input order. -/
def frame_lines (t : Target) (entries : List (Nat × String)) (frame_addresses : List Nat) :
    List String :=
  frame_addresses.enum.map fun p => frame_line t entries p.1 p.2

end sbt

namespace msl

/-- The per-frame output lines of msl's
`process_stack_trace_string_from_addresses`, in input order. -/
def frame_lines (t : Target) (frame_addresses : List Nat) : List String :=
  frame_addresses.enum.map fun p => frame_line t p.1 p.2

end msl

/-- Example target: addresses below 8192 resolve to the real symbol `foo`
starting at 4096; addresses from 8192 resolve to a synthetic placeholder
starting at 8192; the introspection call succeeds with a one-entry method
table for 8192. -/
def sampleTarget : Target where
  resolve := fun a =>
    if a < 8192 then { name := "foo", addr := 4096, synthetic := false }
    else { name := "___lldb_unnamed_symbol7", addr := 8192, synthetic := true }
  module_basename := fun _ => "app"
  EvaluateExpression := fun _ => some [(8192, "-[Shape draw]")]

/-- Example target with the same address space as `sampleTarget` but whose
introspection call fails (`EvaluateExpression` yields no usable value). -/
def failTarget : Target where
  resolve := fun a =>
    if a < 8192 then { name := "foo", addr := 4096, synthetic := false }
    else { name := "___lldb_unnamed_symbol7", addr := 8192, synthetic := true }
  module_basename := fun _ => "app"
  EvaluateExpression := fun _ => none

section Helpers

/-- No digit character is a newline. -/
theorem digitChar_ne_newline (d : Nat) : Nat.digitChar d ≠ '\n' := by
  by_cases hd : d < 16
  · interval_cases d <;> decide
  · have h0 : ¬ d = 0 := by omega
    have h1 : ¬ d = 1 := by omega
    have h2 : ¬ d = 2 := by omega
    have h3 : ¬ d = 3 := by omega
    have h4 : ¬ d = 4 := by omega
    have h5 : ¬ d = 5 := by omega
    have h6 : ¬ d = 6 := by omega
    have h7 : ¬ d = 7 := by omega
    have h8 : ¬ d = 8 := by omega
    have h9 : ¬ d = 9 := by omega
    have h10 : ¬ d = 10 := by omega
    have h11 : ¬ d = 11 := by omega
    have h12 : ¬ d = 12 := by omega
    have h13 : ¬ d = 13 := by omega
    have h14 : ¬ d = 14 := by omega
    have h15 : ¬ d = 15 := by omega
    simp only [Nat.digitChar, h0, h1, h2, h3, h4, h5, h6, h7, h8, h9, h10, h11, h12, h13,
      h14, h15, if_false]
    decide

/-- Every character of a decimal rendering is a digit character, hence not a
newline. -/
theorem natDecimalDigits_ne_newline (n : Nat) : ∀ c ∈ natDecimalDigits n, c ≠ '\n' := by
  induction n using Nat.strong_induction_on with
  | _ n ih =>
    rw [natDecimalDigits]
    split
    · intro c hc
      rw [List.mem_singleton] at hc
      exact hc ▸ digitChar_ne_newline n
    · intro c hc
      rw [List.mem_append, List.mem_singleton] at hc
      rcases hc with hc | hc
      · exact ih (n / 10) (Nat.div_lt_self (by omega) (by omega)) c hc
      · exact hc ▸ digitChar_ne_newline (n % 10)

/-- Every character of a hexadecimal rendering is a digit character, hence
not a newline. -/
theorem natHexDigits_ne_newline (n : Nat) : ∀ c ∈ natHexDigits n, c ≠ '\n' := by
  induction n using Nat.strong_induction_on with
  | _ n ih =>
    rw [natHexDigits]
    split
    · intro c hc
      rw [List.mem_singleton] at hc
      exact hc ▸ digitChar_ne_newline n
    · intro c hc
      rw [List.mem_append, List.mem_singleton] at hc
      rcases hc with hc | hc
      · exact ih (n / 16) (Nat.div_lt_self (by omega) (by omega)) c hc
      · exact hc ▸ digitChar_ne_newline (n % 16)

theorem noNL_append {s t : String} (hs : noNL s) (ht : noNL t) : noNL (s ++ t) := by
  unfold noNL at *
  rw [String.data_append, List.mem_append]
  exact fun h => h.elim hs ht

theorem noNL_pyStr (n : Nat) : noNL (pyStr n) :=
  fun h => natDecimalDigits_ne_newline n _ h rfl

theorem noNL_pyHex (n : Nat) : noNL (pyHex n) := by
  refine noNL_append ?_ ?_
  · unfold noNL
    decide
  · exact fun h => natHexDigits_ne_newline n _ h rfl

theorem noNL_format_left2 (n : Nat) : noNL (format_left2 n) := by
  simp only [format_left2]
  split
  · refine noNL_append (noNL_pyStr n) ?_
    intro h
    have h' := List.eq_of_mem_replicate h
    exact absurd h' (by decide)
  · exact noNL_pyStr n

theorem count_newline_eq_zero {s : String} (h : noNL s) : s.data.count '\n' = 0 :=
  List.count_eq_zero.mpr h

theorem count_newline_append (s t : String) :
    (s ++ t).data.count '\n' = s.data.count '\n' + t.data.count '\n' := by
  rw [String.data_append, List.count_append]

/-- Concatenating a list of strings prepends the head. -/
theorem concatAll_cons (s : String) (l : List String) :
    concatAll (s :: l) = s ++ concatAll l := rfl

/-- The result of the first-match scan is the default or one of the table
values. -/
theorem find_method_name_cases (entries : List (Nat × String)) (k : Nat) (d : String) :
    sbt.find_method_name entries k d = d ∨
      ∃ kv ∈ entries, sbt.find_method_name entries k d = kv.2 := by
  induction entries with
  | nil => exact Or.inl rfl
  | cons kv rest ih =>
    rw [sbt.find_method_name]
    rcases kv with ⟨key, value⟩
    split
    · exact Or.inr ⟨(key, value), List.mem_cons_self _ rest, rfl⟩
    · rcases ih with h | ⟨kv', hmem, h⟩
      · exact Or.inl h
      · exact Or.inr ⟨kv', List.mem_cons_of_mem _ hmem, h⟩

/-- The first-match scan of the loop agrees with association-list lookup,
falling back to the default name. -/
theorem find_method_name_eq_lookup (entries : List (Nat × String)) (k : Nat) (d : String) :
    sbt.find_method_name entries k d = (List.lookup k entries).getD d := by
  induction entries with
  | nil => rfl
  | cons kv rest ih =>
    rw [sbt.find_method_name]
    rcases kv with ⟨key, value⟩
    rw [List.lookup]
    rcases Decidable.em (key = k) with h | h
    · simp [h]
    · have hbeq : (k == key) = false := by
        rw [beq_eq_false_iff_ne]
        exact fun hk => h hk.symm
      simp [h, hbeq, ih]

/-- A member of `List.enumFrom` projects to a member of the list. -/
theorem mem_enumFrom_snd {α : Type} : ∀ (l : List α) (i : Nat) (p : Nat × α),
    p ∈ List.enumFrom i l → p.2 ∈ l := by
  intro l
  induction l with
  | nil => intro i p h; cases h
  | cons a rest ih =>
    intro i p h
    rw [List.enumFrom_cons, List.mem_cons] at h
    rcases h with h | h
    · rw [h]; exact List.mem_cons_self a rest
    · exact List.mem_cons_of_mem _ (ih (i + 1) p h)

end Helpers

section LoopLemmas

/-- Unfolding the accumulator: the `sbt` frame loop appends, in input order,
one rendered line per enumerated address. -/
theorem sbt_process_loop_eq (t : Target) (e : List (Nat × String)) :
    ∀ (addrs : List Nat) (i : Nat) (acc : String),
      sbt.process_loop t e addrs i acc
        = acc ++ concatAll ((List.enumFrom i addrs).map fun p => sbt.frame_line t e p.1 p.2) := by
  intro addrs
  induction addrs with
  | nil =>
    intro i acc
    simp [sbt.process_loop, concatAll]
  | cons a rest ih =>
    intro i acc
    rw [sbt.process_loop, ih, List.enumFrom_cons, List.map_cons, concatAll_cons,
      String.append_assoc]

/-- The `sbt` trace is the concatenation of its per-frame lines. -/
theorem sbt_process_eq_concat (addrs : List Nat) (t : Target) :
    sbt.process_stack_trace_string_from_addresses addrs t
      = concatAll (sbt.frame_lines t (sbt.entries_for addrs t) addrs) := by
  rw [show sbt.process_stack_trace_string_from_addresses addrs t
      = sbt.process_loop t (sbt.entries_for addrs t) addrs 0 "" from rfl]
  rw [sbt_process_loop_eq]
  simp [sbt.frame_lines, List.enum]

/-- Unfolding the accumulator of msl's frame loop. -/
theorem msl_process_loop_eq (t : Target) :
    ∀ (addrs : List Nat) (i : Nat) (acc : String),
      msl.process_loop t addrs i acc
        = acc ++ concatAll ((List.enumFrom i addrs).map fun p => msl.frame_line t p.1 p.2) := by
  intro addrs
  induction addrs with
  | nil =>
    intro i acc
    simp [msl.process_loop, concatAll]
  | cons a rest ih =>
    intro i acc
    rw [msl.process_loop, ih, List.enumFrom_cons, List.map_cons, concatAll_cons,
      String.append_assoc]

/-- The msl trace is the concatenation of its per-frame lines. -/
theorem msl_process_eq_concat (addrs : List Nat) (t : Target) :
    msl.process_stack_trace_string_from_addresses addrs t
      = concatAll (msl.frame_lines t addrs) := by
  rw [show msl.process_stack_trace_string_from_addresses addrs t
      = msl.process_loop t addrs 0 "" from rfl]
  rw [msl_process_loop_eq]
  simp [msl.frame_lines, List.enum]

end LoopLemmas

section NewlineLemmas

theorem noNL_offset_string (t : Target) (a : Nat) : noNL (sbt.offset_string t a) := by
  simp only [sbt.offset_string]
  split
  · exact noNL_append (by unfold noNL; decide) (noNL_pyStr _)
  · unfold noNL; decide

theorem noNL_msl_offset_string (t : Target) (a : Nat) : noNL (msl.offset_string t a) := by
  simp only [msl.offset_string]
  split
  · exact noNL_append (by unfold noNL; decide) (noNL_pyStr _)
  · unfold noNL; decide

theorem noNL_frame_symbol_name (t : Target) (entries : List (Nat × String)) (a : Nat)
    (hname : noNL (t.resolve a).name) (hentries : ∀ kv ∈ entries, noNL kv.2) :
    noNL (sbt.frame_symbol_name t entries a) := by
  simp only [sbt.frame_symbol_name]
  split
  · rcases find_method_name_cases entries (t.resolve a).addr
        ((t.resolve a).name ++ " ... unresolved womp womp") with h | ⟨kv, hmem, h⟩
    · rw [h]
      exact noNL_append hname (by unfold noNL; decide)
    · rw [h]
      exact hentries kv hmem
  · exact hname

/-- A rendered `sbt` frame line holds exactly one newline, the final one,
provided the symbol name, module name and method-table values hold none. -/
theorem count_newline_frame_line (t : Target) (entries : List (Nat × String)) (i a : Nat)
    (hname : noNL (t.resolve a).name) (hmod : noNL (t.module_basename a))
    (hentries : ∀ kv ∈ entries, noNL kv.2) :
    (sbt.frame_line t entries i a).data.count '\n' = 1 := by
  simp only [sbt.frame_line, count_newline_append]
  rw [count_newline_eq_zero (noNL_format_left2 i), count_newline_eq_zero (noNL_pyHex a),
    count_newline_eq_zero hmod,
    count_newline_eq_zero (noNL_frame_symbol_name t entries a hname hentries),
    count_newline_eq_zero (noNL_offset_string t a)]
  decide

/-- A rendered msl frame line holds exactly one newline, the final one. -/
theorem count_newline_msl_frame_line (t : Target) (i a : Nat)
    (hname : noNL (t.resolve a).name) (hmod : noNL (t.module_basename a)) :
    (msl.frame_line t i a).data.count '\n' = 1 := by
  simp only [msl.frame_line, count_newline_append]
  rw [count_newline_eq_zero (noNL_format_left2 i), count_newline_eq_zero (noNL_pyHex a),
    count_newline_eq_zero hmod, count_newline_eq_zero hname,
    count_newline_eq_zero (noNL_msl_offset_string t a)]
  decide

theorem count_newline_concat_sbt (t : Target) (e : List (Nat × String))
    (hentries : ∀ kv ∈ e, noNL kv.2) :
    ∀ (addrs : List Nat) (i : Nat),
      (∀ a ∈ addrs, noNL (t.resolve a).name ∧ noNL (t.module_basename a)) →
      (concatAll ((List.enumFrom i addrs).map fun p => sbt.frame_line t e p.1 p.2)).data.count '\n'
        = addrs.length := by
  intro addrs
  induction addrs with
  | nil => intro i _; rfl
  | cons a rest ih =>
    intro i h
    rw [List.enumFrom_cons, List.map_cons, concatAll_cons, count_newline_append]
    have ha := h a (List.mem_cons_self a rest)
    rw [count_newline_frame_line t e i a ha.1 ha.2 hentries]
    rw [ih (i + 1) fun x hx => h x (List.mem_cons_of_mem a hx)]
    simp [List.length_cons, Nat.add_comm]

theorem count_newline_concat_msl (t : Target) :
    ∀ (addrs : List Nat) (i : Nat),
      (∀ a ∈ addrs, noNL (t.resolve a).name ∧ noNL (t.module_basename a)) →
      (concatAll ((List.enumFrom i addrs).map fun p => msl.frame_line t p.1 p.2)).data.count '\n'
        = addrs.length := by
  intro addrs
  induction addrs with
  | nil => intro i _; rfl
  | cons a rest ih =>
    intro i h
    rw [List.enumFrom_cons, List.map_cons, concatAll_cons, count_newline_append]
    have ha := h a (List.mem_cons_self a rest)
    rw [count_newline_msl_frame_line t i a ha.1 ha.2]
    rw [ih (i + 1) fun x hx => h x (List.mem_cons_of_mem a hx)]
    simp [List.length_cons, Nat.add_comm]

/-- Every rendered `sbt` frame line starts with the literal `frame #`. -/
theorem frame_line_head (t : Target) (entries : List (Nat × String)) (i a : Nat) :
    ∃ u, sbt.frame_line t entries i a = "frame #" ++ u := by
  refine ⟨format_left2 i ++ (": " ++ (pyHex a ++ (" " ++ (t.module_basename a
    ++ ("`" ++ (sbt.frame_symbol_name t entries a ++ (" " ++ (sbt.offset_string t a
    ++ "\n")))))))), ?_⟩
  simp only [sbt.frame_line, String.append_assoc]

/-- Every rendered msl frame line starts with the literal `frame #`
(followed there by a further space). -/
theorem msl_frame_line_head (t : Target) (i a : Nat) :
    ∃ u, msl.frame_line t i a = "frame #" ++ u := by
  refine ⟨" " ++ (format_left2 i ++ (": " ++ (pyHex a ++ (" " ++ (t.module_basename a
    ++ ("`" ++ ((t.resolve a).name ++ (" " ++ (msl.offset_string t a ++ "\n"))))))))), ?_⟩
  simp only [msl.frame_line, String.append_assoc]
  rfl

end NewlineLemmas

section Claims

/-- Claim C1, counterexample: an input whose single address resolves to a
non-synthetic symbol still issues an introspection query — the batched
`EvaluateExpression` call is made unconditionally, so its count is not 0. -/
theorem claim_C1_counterexample :
    (∀ a ∈ [(4096 : Nat)], (sampleTarget.resolve a).synthetic = false) ∧
    sbt.introspection_query_count [4096] sampleTarget ≠ 0 := by
  constructor
  · decide
  · decide

/-- Claim C1 as amended: `process_stack_trace_string_from_addresses` issues
exactly one batched introspection query on every call — also when every
address resolves to a non-synthetic symbol — and the traced variant computes
the same trace string, the per-frame loop issuing no further query. -/
theorem claim_C1_single_batched_query (frame_addresses : List Nat) (t : Target) :
    sbt.introspection_query_count frame_addresses t = 1 ∧
    (sbt.process_traced frame_addresses t).1
      = sbt.process_stack_trace_string_from_addresses frame_addresses t :=
  ⟨rfl, rfl⟩

/-- Claim C2: every frame's symbol name is exactly one of: the resolved name
(non-synthetic), the method-table value at the symbol start (synthetic with
a match), or the placeholder with the explicit unresolved marker appended
(synthetic without a match); the three cases are exhaustive. -/
theorem claim_C2_exactly_one_symbol_name (t : Target) (entries : List (Nat × String)) (a : Nat) :
    ((t.resolve a).synthetic = false →
        sbt.frame_symbol_name t entries a = (t.resolve a).name) ∧
    ((t.resolve a).synthetic = true → ∀ v, List.lookup (t.resolve a).addr entries = some v →
        sbt.frame_symbol_name t entries a = v) ∧
    ((t.resolve a).synthetic = true → List.lookup (t.resolve a).addr entries = none →
        sbt.frame_symbol_name t entries a
          = (t.resolve a).name ++ " ... unresolved womp womp") ∧
    (((t.resolve a).synthetic = false ∧
        sbt.frame_symbol_name t entries a = (t.resolve a).name) ∨
      ((t.resolve a).synthetic = true ∧ ∃ v, List.lookup (t.resolve a).addr entries = some v
          ∧ sbt.frame_symbol_name t entries a = v) ∨
      ((t.resolve a).synthetic = true ∧ List.lookup (t.resolve a).addr entries = none
          ∧ sbt.frame_symbol_name t entries a
            = (t.resolve a).name ++ " ... unresolved womp womp")) := by
  refine ⟨?_, ?_, ?_, ?_⟩
  · intro h
    simp [sbt.frame_symbol_name, h]
  · intro h v hv
    simp only [sbt.frame_symbol_name, h, if_true]
    rw [find_method_name_eq_lookup, hv]
    rfl
  · intro h hn
    simp only [sbt.frame_symbol_name, h, if_true]
    rw [find_method_name_eq_lookup, hn]
    rfl
  · cases hsyn : (t.resolve a).synthetic with
    | false => exact Or.inl ⟨rfl, by simp [sbt.frame_symbol_name, hsyn]⟩
    | true =>
      cases hl : List.lookup (t.resolve a).addr entries with
      | none =>
        refine Or.inr (Or.inr ⟨rfl, rfl, ?_⟩)
        simp only [sbt.frame_symbol_name, hsyn, if_true]
        rw [find_method_name_eq_lookup, hl]
        rfl
      | some v =>
        refine Or.inr (Or.inl ⟨rfl, v, rfl, ?_⟩)
        simp only [sbt.frame_symbol_name, hsyn, if_true]
        rw [find_method_name_eq_lookup, hl]
        rfl

/-- Claim C2, witness: the three cases at concrete inputs. -/
theorem claim_C2_witness :
    sbt.frame_symbol_name sampleTarget [(8192, "-[Shape draw]")] 4096 = "foo" ∧
    sbt.frame_symbol_name sampleTarget [(8192, "-[Shape draw]")] 8200 = "-[Shape draw]" ∧
    sbt.frame_symbol_name sampleTarget [] 8200
      = "___lldb_unnamed_symbol7 ... unresolved womp womp" := by
  refine ⟨(claim_C2_exactly_one_symbol_name sampleTarget _ 4096).1 (by decide),
    (claim_C2_exactly_one_symbol_name sampleTarget _ 8200).2.1 (by decide) _ (by decide), ?_⟩
  have h := (claim_C2_exactly_one_symbol_name sampleTarget [] 8200).2.2.1 (by decide) (by decide)
  rw [h]
  decide

/-- Claim C3: when the batched introspection call fails, the trace is still
produced (the embedding is a total function into strings), it covers every
input address in order, all synthetic frames keep the unresolved marker
name, and non-synthetic frames are unaffected. -/
theorem claim_C3_introspection_failure (addrs : List Nat) (t : Target)
    (h : t.EvaluateExpression
        (sbt.generate_executable_methods_script (addrs.map fun f => (t.resolve f).addr))
      = none) :
    sbt.process_stack_trace_string_from_addresses addrs t
      = concatAll (sbt.frame_lines t [] addrs) ∧
    (sbt.frame_lines t [] addrs).length = addrs.length ∧
    (∀ a, (t.resolve a).synthetic = true →
        sbt.frame_symbol_name t [] a = (t.resolve a).name ++ " ... unresolved womp womp") ∧
    (∀ a, (t.resolve a).synthetic = false →
        sbt.frame_symbol_name t [] a = (t.resolve a).name) := by
  have hent : sbt.entries_for addrs t = [] := by
    unfold sbt.entries_for
    rw [h]
    rfl
  refine ⟨?_, ?_, ?_, ?_⟩
  · rw [sbt_process_eq_concat, hent]
  · simp [sbt.frame_lines, List.enum_length]
  · intro a ha
    simp [sbt.frame_symbol_name, ha, sbt.find_method_name]
  · intro a ha
    simp [sbt.frame_symbol_name, ha]

/-- Claim C3, witness: a target whose introspection call fails still yields
a full-length trace, the synthetic frame carrying the marker name. -/
theorem claim_C3_witness :
    sbt.process_stack_trace_string_from_addresses [4096, 8200] failTarget
      = concatAll (sbt.frame_lines failTarget [] [4096, 8200]) ∧
    (sbt.frame_lines failTarget [] [4096, 8200]).length = 2 ∧
    sbt.frame_symbol_name failTarget [] 8200
      = (failTarget.resolve 8200).name ++ " ... unresolved womp womp" := by
  have h := claim_C3_introspection_failure [4096, 8200] failTarget (by rfl)
  exact ⟨h.1, h.2.1, h.2.2.1 8200 (by decide)⟩

/-- Claim C4: a frame at its symbol's start address gets an empty offset
suffix, and a frame `k > 0` bytes past the start gets exactly `+ k`, in both
the sbt and the msl formatter. -/
theorem claim_C4_offset_suffix (t : Target) (a k : Nat) :
    ((t.resolve a).addr = a →
        sbt.offset_string t a = "" ∧ msl.offset_string t a = "") ∧
    (0 < k → a = (t.resolve a).addr + k →
        sbt.offset_string t a = "+ " ++ pyStr k ∧
        msl.offset_string t a = "+ " ++ pyStr k) := by
  constructor
  · intro h
    constructor <;> simp [sbt.offset_string, msl.offset_string, h]
  · intro hk ha
    have h1 : (a : Int) - ((t.resolve a).addr : Int) = (k : Int) := by
      omega
    have h2 : (0 : Int) < (k : Int) := by exact_mod_cast hk
    constructor
    · simp only [sbt.offset_string, h1, if_pos h2]
      rw [Int.toNat_natCast]
    · simp only [msl.offset_string, h1, if_pos h2]
      rw [Int.toNat_natCast]

/-- Claim C4, witness: offsets at concrete addresses (4096 is the start of
its symbol; 4176 is 80 bytes past it). -/
theorem claim_C4_witness :
    sbt.offset_string sampleTarget 4096 = "" ∧
    sbt.offset_string sampleTarget 4176 = "+ " ++ pyStr 80 := by
  refine ⟨((claim_C4_offset_suffix sampleTarget 4096 0).1 (by decide)).1, ?_⟩
  exact ((claim_C4_offset_suffix sampleTarget 4176 80).2 (by decide) (by decide)).1

/-- Claim C5: a synthetic frame whose symbol start address is a key of the
introspection result set gets exactly the associated qualified name. -/
theorem claim_C5_substituted_name (t : Target) (entries : List (Nat × String)) (a : Nat)
    (v : String) (hsyn : (t.resolve a).synthetic = true)
    (hlook : List.lookup (t.resolve a).addr entries = some v) :
    sbt.frame_symbol_name t entries a = v := by
  simp only [sbt.frame_symbol_name, hsyn, if_true]
  rw [find_method_name_eq_lookup, hlook]
  rfl

/-- Claim C5, witness: the synthetic symbol at 8192 is substituted by the
table value. -/
theorem claim_C5_witness :
    sbt.frame_symbol_name sampleTarget [(8192, "-[Shape draw]")] 8200 = "-[Shape draw]" :=
  claim_C5_substituted_name sampleTarget [(8192, "-[Shape draw]")] 8200 "-[Shape draw]"
    (by decide) (by decide)

/-- Claim C6: the trace is the in-order concatenation of one rendered line
per input address — the i-th line renders the i-th address with index i, so
there is no reordering and no deduplication of repeated addresses. -/
theorem claim_C6_frame_order (addrs : List Nat) (t : Target) :
    sbt.process_stack_trace_string_from_addresses addrs t
      = concatAll (sbt.frame_lines t (sbt.entries_for addrs t) addrs) ∧
    (sbt.frame_lines t (sbt.entries_for addrs t) addrs).length = addrs.length ∧
    ∀ (i a : Nat), addrs[i]? = some a →
      (sbt.frame_lines t (sbt.entries_for addrs t) addrs)[i]?
        = some (sbt.frame_line t (sbt.entries_for addrs t) i a) := by
  refine ⟨sbt_process_eq_concat addrs t, by simp [sbt.frame_lines, List.enum_length], ?_⟩
  intro i a ha
  simp [sbt.frame_lines, List.getElem?_map, List.getElem?_enum, ha]

/-- Claim C6, witness: a repeated address keeps both its occurrences, the
second one rendered at index 1. -/
theorem claim_C6_witness :
    (sbt.frame_lines sampleTarget (sbt.entries_for [4096, 4096] sampleTarget) [4096, 4096])[1]?
      = some (sbt.frame_line sampleTarget (sbt.entries_for [4096, 4096] sampleTarget) 1 4096) :=
  (claim_C6_frame_order [4096, 4096] sampleTarget).2.2 1 4096 (by rfl)

/-- Claim C7, counterexample: `"i386-arm64"` contains `"arm64"`, yet the
resolver returns `"$eax"` (the `i386` branch is checked first), not `"$x0"`
as the claim requires for every string containing `"arm64"`. -/
theorem claim_C7_counterexample :
    is_substring "arm64" "i386-arm64" = true ∧
    commands_breakafterregex.get_register_string "i386-arm64" = Except.ok "$eax" ∧
    commands_breakafterregex.get_register_string "i386-arm64" ≠ Except.ok "$x0" := by
  refine ⟨by decide, by rfl, ?_⟩
  intro h
  rw [show commands_breakafterregex.get_register_string "i386-arm64" = Except.ok "$eax"
    from rfl] at h
  exact absurd (Except.ok.inj h) (by decide)

/-- Claim C7 as amended: the resolver checks the three substrings in the
fixed order `x86_64`, `i386`, `arm64` — `$rax` whenever `x86_64` occurs,
`$eax` when `i386` occurs but `x86_64` does not, `$x0` when `arm64` occurs
but neither earlier substring does — and fails with the unsupported-hardware
error exactly when none of the three occurs; in particular
`"arm64-apple-ios"` yields `"$x0"` and `"unknown-triple"` fails. -/
theorem claim_C7_register_mapping (s : String) :
    (is_substring "x86_64" s = true →
        commands_breakafterregex.get_register_string s = Except.ok "$rax") ∧
    (is_substring "x86_64" s = false → is_substring "i386" s = true →
        commands_breakafterregex.get_register_string s = Except.ok "$eax") ∧
    (is_substring "x86_64" s = false → is_substring "i386" s = false →
        is_substring "arm64" s = true →
        commands_breakafterregex.get_register_string s = Except.ok "$x0") ∧
    (commands_breakafterregex.get_register_string s = Except.error "Unknown hardware."
        ↔ is_substring "x86_64" s = false ∧ is_substring "i386" s = false ∧
          is_substring "arm64" s = false) ∧
    commands_breakafterregex.get_register_string "arm64-apple-ios" = Except.ok "$x0" ∧
    commands_breakafterregex.get_register_string "unknown-triple"
      = Except.error "Unknown hardware." := by
  refine ⟨?_, ?_, ?_, ?_, by rfl, by rfl⟩
  · intro h
    simp [commands_breakafterregex.get_register_string, h]
  · intro h1 h2
    simp [commands_breakafterregex.get_register_string, h1, h2]
  · intro h1 h2 h3
    simp [commands_breakafterregex.get_register_string, h1, h2, h3]
  · constructor
    · intro h
      by_cases h1 : is_substring "x86_64" s <;> by_cases h2 : is_substring "i386" s <;>
        by_cases h3 : is_substring "arm64" s <;>
        simp_all [commands_breakafterregex.get_register_string]
    · rintro ⟨h1, h2, h3⟩
      simp [commands_breakafterregex.get_register_string, h1, h2, h3]

/-- Claim C7, witness: the first branch at a concrete x86_64 triple. -/
theorem claim_C7_witness :
    commands_breakafterregex.get_register_string "x86_64-apple-macosx" = Except.ok "$rax" :=
  (claim_C7_register_mapping "x86_64-apple-macosx").1 (by decide)

/-- Claim C8: the two copies of `get_register_string` — in
`src/lldb/breakafterregex.py` and `src/lldb/commands/breakafterregex.py` —
compute the same function: same register string or same failure on every
identifier. -/
theorem claim_C8_register_resolvers_agree (s : String) :
    breakafterregex.get_register_string s = commands_breakafterregex.get_register_string s :=
  rfl

/-- Claim C9: with no selected thread the command fails with the
paused-state error and produces no trace; with a selected thread it always
produces the trace — no other condition aborts the call. -/
theorem claim_C9_invalid_state (t : Target) :
    sbt.handle_command none t = Except.error "LLDB must be paused to execute this command" ∧
    ∀ frame_addresses, sbt.handle_command (some frame_addresses) t
      = Except.ok (sbt.process_stack_trace_string_from_addresses frame_addresses t) :=
  ⟨rfl, fun _ => rfl⟩

/-- Claim C10: for newline-free symbol, module and method-table names, a
trace over n addresses holds exactly n newline characters, each per-frame
line begins with `frame #` and ends in its single newline, and the empty
input yields the empty string — in both the sbt and the msl formatter. -/
theorem claim_C10_line_structure (addrs : List Nat) (t : Target)
    (hres : ∀ a ∈ addrs, noNL (t.resolve a).name ∧ noNL (t.module_basename a))
    (hent : ∀ kv ∈ sbt.entries_for addrs t, noNL kv.2) :
    (sbt.process_stack_trace_string_from_addresses addrs t).data.count '\n' = addrs.length ∧
    (∀ p ∈ sbt.frame_lines t (sbt.entries_for addrs t) addrs,
        (∃ u, p = "frame #" ++ u) ∧ p.data.count '\n' = 1) ∧
    sbt.process_stack_trace_string_from_addresses [] t = "" ∧
    (msl.process_stack_trace_string_from_addresses addrs t).data.count '\n' = addrs.length ∧
    (∀ p ∈ msl.frame_lines t addrs, (∃ u, p = "frame #" ++ u) ∧ p.data.count '\n' = 1) ∧
    msl.process_stack_trace_string_from_addresses [] t = "" := by
  refine ⟨?_, ?_, rfl, ?_, ?_, rfl⟩
  · rw [sbt_process_eq_concat]
    have hc := count_newline_concat_sbt t (sbt.entries_for addrs t) hent addrs 0 hres
    simpa [sbt.frame_lines, List.enum] using hc
  · intro p hp
    simp only [sbt.frame_lines, List.mem_map] at hp
    rcases hp with ⟨q, hq, rfl⟩
    have hmem : q.2 ∈ addrs := mem_enumFrom_snd addrs 0 q hq
    have ha := hres q.2 hmem
    exact ⟨frame_line_head t _ q.1 q.2,
      count_newline_frame_line t _ q.1 q.2 ha.1 ha.2 hent⟩
  · rw [msl_process_eq_concat]
    have hc := count_newline_concat_msl t addrs 0 hres
    simpa [msl.frame_lines, List.enum] using hc
  · intro p hp
    simp only [msl.frame_lines, List.mem_map] at hp
    rcases hp with ⟨q, hq, rfl⟩
    have hmem : q.2 ∈ addrs := mem_enumFrom_snd addrs 0 q hq
    have ha := hres q.2 hmem
    exact ⟨msl_frame_line_head t q.1 q.2,
      count_newline_msl_frame_line t q.1 q.2 ha.1 ha.2⟩

/-- Claim C10, witness: a two-address trace holds exactly two newlines. -/
theorem claim_C10_witness :
    (sbt.process_stack_trace_string_from_addresses [4096, 8200] sampleTarget).data.count '\n'
      = 2 := by
  have h := claim_C10_line_structure [4096, 8200] sampleTarget ?hres ?hent
  · exact h.1
  case hres =>
    intro a ha
    rcases List.mem_cons.mp ha with rfl | ha2
    · exact ⟨by unfold noNL; decide, by unfold noNL; decide⟩
    · rcases List.mem_singleton.mp ha2 with rfl
      exact ⟨by unfold noNL; decide, by unfold noNL; decide⟩
  case hent =>
    intro kv hkv
    have he : sbt.entries_for [4096, 8200] sampleTarget = [(8192, "-[Shape draw]")] := rfl
    rw [he] at hkv
    rcases List.mem_singleton.mp hkv with rfl
    unfold noNL
    decide

end Claims
